import Mathlib

/-!
Verification of the frame-resolution subsystem, structure cache, rendering
and token encryption of the figma-obsidian-sync plugin.

Conventions of the shallow embedding:
* JS numbers (coordinates, box sizes) are modelled as `ℚ`; the JS expression
  `1000000 / area`, which evaluates to `Infinity` when `area = 0`, is modelled
  by the type `JScore` below.
* Timestamps are modelled as integer milliseconds.  The source stores
  `lastUpdated` as an ISO string and converts it back with
  `new Date(s).getTime()`, which is the identity on the millisecond value.
* JS strings are Lean `String`s; where the code indexes UTF-16 code units
  (the token manager) the string is modelled as its list of code units
  (`List Nat`).
* The mutable `this.cache` record is modelled as an association list passed
  and returned explicitly; `requestUrl` is modelled by a `FetchResult`
  oracle value, and each resolver entry point additionally returns the
  number of structure fetches it performed.
-/

/-- Absolute bounding box of a node (`absoluteBoundingBox` in the fetched
structure): fields `x`, `y`, `width`, `height`. -/
structure BBox where
  x : ℚ
  y : ℚ
  width : ℚ
  height : ℚ
deriving DecidableEq, Repr

mutual
/-- One node of the fetched document structure: `id`, `name`, `type`
(a string such as "CANVAS", "FRAME", …), optional `absoluteBoundingBox`,
and the list of children.  (`children` is a specialised list so that all
recursions below are structural.) -/
inductive FNode where
  | mk (id : String) (name : String) (ntype : String)
       (bbox : Option BBox) (children : FNodeList)

/-- List of child nodes. -/
inductive FNodeList where
  | nil
  | cons (head : FNode) (tail : FNodeList)
end

def FNode.id : FNode → String
  | .mk i _ _ _ _ => i

def FNode.name : FNode → String
  | .mk _ n _ _ _ => n

def FNode.ntype : FNode → String
  | .mk _ _ t _ _ => t

def FNode.bbox : FNode → Option BBox
  | .mk _ _ _ b _ => b

def FNode.children : FNode → FNodeList
  | .mk _ _ _ _ cs => cs

/-- The fetched file structure; `document` is the root node
(`fileData.document`). -/
structure FileData where
  document : FNode

/-- Resolved frame information (interface `FrameInfo`, main.ts:57-62). -/
structure FrameInfo where
  nodeId : String
  frameName : String
  pageName : String
  fullPath : String
deriving DecidableEq, Repr

/-- `isFrameNode` (main.ts:376-380): container kinds. -/
def isFrameNode (node : FNode) : Bool :=
  node.ntype == "FRAME" || node.ntype == "COMPONENT" || node.ntype == "INSTANCE"

/-- `isPointInBounds` (main.ts:382-387): inclusive on all edges. -/
def isPointInBounds (x y : ℚ) (bounds : BBox) : Bool :=
  decide (bounds.x ≤ x) && decide (x ≤ bounds.x + bounds.width) &&
  decide (bounds.y ≤ y) && decide (y ≤ bounds.y + bounds.height)

mutual
/-- Pre-order traversal with ancestor paths (`traverseNodes`,
main.ts:389-398): each visited node is paired with the full path from the
root down to and including the node itself (`currentPath`). -/
def preorderNode (path : List FNode) : FNode → List (FNode × List FNode)
  | .mk i nm t b cs =>
    (FNode.mk i nm t b cs, path ++ [FNode.mk i nm t b cs]) ::
      preorderChildren (path ++ [FNode.mk i nm t b cs]) cs

def preorderChildren (path : List FNode) : FNodeList → List (FNode × List FNode)
  | .nil => []
  | .cons c cs => preorderNode path c ++ preorderChildren path cs
end

mutual
/-- Whether the subtree rooted at a node contains a node with the given id
(the recursive `findNode` of `findFrameInfo`, main.ts:424-439, which only
reports whether the id was found — the `currentPath` it threads along is
never stored anywhere). -/
def containsNode (nodeId : String) : FNode → Bool
  | .mk i _ _ _ cs => (i == nodeId) || containsNodeList nodeId cs

def containsNodeList (nodeId : String) : FNodeList → Bool
  | .nil => false
  | .cons c cs => containsNode nodeId c || containsNodeList nodeId cs
end

/-- The page loop of `findFrameInfo` (main.ts:442-452): the first child of
the document that is a CANVAS and whose subtree contains the node. -/
def findCanvasPage (nodeId : String) : FNodeList → Option FNode
  | .nil => none
  | .cons p ps =>
    if p.ntype == "CANVAS" && containsNode nodeId p then some p
    else findCanvasPage nodeId ps

/-- The container-name computation of `findFrameInfo` (main.ts:458-468):
last container-kind node of `path`, else the literal "Root". -/
def frameNameFromPath (path : List FNode) : String :=
  match (path.filter (fun n => isFrameNode n)).getLast? with
  | some f => f.name
  | none => "Root"

/-- `findFrameInfo` (main.ts:418-481).  Faithful to the source, including
its defect: the recursive search (`containsNode`) discards the ancestor
path it builds, and the outer `path` array receives only the page via
`path.unshift(page)` (main.ts:419, 447), so the filtered frame list is
always empty and `fullPath` is always the empty join. -/
def findFrameInfo (nodeId : String) (fileData : FileData) : Option FrameInfo :=
  match findCanvasPage nodeId fileData.document.children with
  | none => none
  | some page =>
    let path : List FNode := [page]
    let frameName := frameNameFromPath path
    let fullPath := String.intercalate " > " ((path.drop 1).map FNode.name)
    some ⟨nodeId, frameName, page.name,
          if fullPath == "" then frameName else fullPath⟩

/-- A JS number as produced by `1000000 / area`: either `Infinity`
(division of the positive constant by zero) or a finite rational. -/
inductive JScore where
  | inf
  | val (q : ℚ)
deriving DecidableEq, Repr

/-- The JS comparison `s > t` on scores (`Infinity > Infinity` is false). -/
def jsGt : JScore → JScore → Bool
  | .inf, .inf => false
  | .inf, .val _ => true
  | .val _, .inf => false
  | .val a, .val b => decide (b < a)

/-- The score `1000000 / area` (main.ts:358) under JS division. -/
def jsScore (area : ℚ) : JScore :=
  if area = 0 then .inf else .val (1000000 / area)

/-- A visited entry: the node together with its ancestor path. -/
abbrev Cand := FNode × List FNode

/-- Area of the node's bounding box (`bounds.width * bounds.height`);
only used on nodes that have a box. -/
def candArea (np : Cand) : ℚ :=
  match np.1.bbox with
  | some b => b.width * b.height
  | none => 0

/-- Whether a visited node is a coordinate candidate: container kind, has a
bounding box, and the box contains the point (main.ts:351-355). -/
def candPred (x y : ℚ) (np : Cand) : Bool :=
  isFrameNode np.1 &&
    (match np.1.bbox with
     | some b => isPointInBounds x y b
     | none => false)

/-- One step of the best-match accumulation inside `findFrameAtCoordinates`
(main.ts:350-367): the running best match (node, path and its score) is
replaced exactly when the new score is strictly greater; the initial best
score is `-1`. -/
def stepFn (x y : ℚ) (acc : Option (Cand × JScore)) (np : Cand) :
    Option (Cand × JScore) :=
  if isFrameNode np.1 then
    match np.1.bbox with
    | some bounds =>
      if isPointInBounds x y bounds then
        let area := bounds.width * bounds.height
        let sc := jsScore area
        let bestScore := match acc with
          | none => JScore.val (-1)
          | some (_, s) => s
        if jsGt sc bestScore then some (np, sc) else acc
      else acc
    | none => acc
  else acc

/-- The candidate (with its score) selected by the traversal of
`findFrameAtCoordinates` (main.ts:344-367). -/
def bestCand (x y : ℚ) (fileData : FileData) : Option (Cand × JScore) :=
  (preorderNode [] fileData.document).foldl (stepFn x y) none

/-- `buildFrameInfoFromPath` (main.ts:400-416).  `findIndex` returning `-1`
(no CANVAS in the path) makes `slice(pageIndex + 1)` the whole path. -/
def buildFrameInfoFromPath (node : FNode) (path : List FNode) : FrameInfo :=
  let pageName := match path.find? (fun n => n.ntype == "CANVAS") with
    | some p => p.name
    | none => "Unknown Page"
  let framePathNodes := match path.findIdx? (fun n => n.ntype == "CANVAS") with
    | some i => path.drop (i + 1)
    | none => path
  let fullPath := String.intercalate " > " (framePathNodes.map FNode.name)
  ⟨node.id, node.name, pageName, if fullPath == "" then node.name else fullPath⟩

/-- `findFrameAtCoordinates` (main.ts:344-374). -/
def findFrameAtCoordinates (x y : ℚ) (fileData : FileData) : Option FrameInfo :=
  match bestCand x y fileData with
  | some (np, _) => some (buildFrameInfoFromPath np.1 np.2)
  | none => none

/-- One cache record (interface `FrameCache`, main.ts:50-55).  `frameMap` is
the per-anchor resolution map, `fileStructure` the optionally retained
structure tree. -/
structure FrameCache where
  fileKey : String
  lastUpdated : Int
  frameMap : List (String × FrameInfo)
  fileStructure : Option FileData

/-- The mutable `this.cache : Record<string, FrameCache>`, modelled as an
association list (keys unique by construction of the operations below). -/
abbrev Cache := List (String × FrameCache)

/-- Lookup `cache[fileKey]` (first matching key). -/
def cLookup : Cache → String → Option FrameCache
  | [], _ => none
  | (k, e) :: rest, key => if k = key then some e else cLookup rest key

/-- Assignment `cache[fileKey] = entry`: replaces the existing binding or
appends a new one. -/
def cSet : Cache → String → FrameCache → Cache
  | [], key, entry => [(key, entry)]
  | (k, e) :: rest, key, entry =>
    if k = key then (k, entry) :: rest else (k, e) :: cSet rest key entry

/-- `delete cache[fileKey]`. -/
def cErase : Cache → String → Cache
  | [], _ => []
  | (k, e) :: rest, key =>
    if k = key then cErase rest key else (k, e) :: cErase rest key

/-- Lookup in a `frameMap`. -/
def fmLookup : List (String × FrameInfo) → String → Option FrameInfo
  | [], _ => none
  | (k, i) :: rest, key => if k = key then some i else fmLookup rest key

/-- Assignment `frameMap[nodeId] = info`. -/
def fmSet : List (String × FrameInfo) → String → FrameInfo → List (String × FrameInfo)
  | [], key, info => [(key, info)]
  | (k, i) :: rest, key, info =>
    if k = key then (k, info) :: rest else (k, i) :: fmSet rest key info

/-- The 24-hour validity window in milliseconds (`24 * 60 * 60 * 1000`). -/
def cacheValidityMs : Int := 24 * 60 * 60 * 1000

/-- `getCachedFrameInfo` (main.ts:295-307): returns the mapped FrameInfo of
a present entry unless the entry is strictly older than 24 hours, in which
case the entry is deleted and the result is absent.  Returns the possibly
modified cache alongside the result. -/
def getCachedFrameInfo (now : Int) (fileKey nodeId : String) (cache : Cache) :
    Option FrameInfo × Cache :=
  match cLookup cache fileKey with
  | none => (none, cache)
  | some entry =>
    let cacheAge := now - entry.lastUpdated
    if cacheAge > cacheValidityMs then (none, cErase cache fileKey)
    else (fmLookup entry.frameMap nodeId, cache)

/-- Outcome of one `requestUrl` call: a thrown transport error, or a
response with a status and (parsed) body. -/
inductive FetchResult where
  | err
  | ok (status : Int) (data : FileData)

/-- Whether a fetch outcome is a failure for `fetchFileStructure`
(transport error, caught by its `try`/`catch`, or a non-200 status). -/
def fetchFails : FetchResult → Prop
  | .err => True
  | .ok status _ => status ≠ 200

/-- `fetchFileStructure` (main.ts:309-342).  On success the entry is
created only when no entry for the key exists (`if (!this.cache[fileKey])`,
main.ts:328); an existing entry is left untouched.  All failures are
converted to an absent result (the `catch` and the status check), so no
exception escapes. -/
def fetchFileStructure (fr : FetchResult) (now : Int) (fileKey : String)
    (cache : Cache) : Option FileData × Cache :=
  match fr with
  | .err => (none, cache)
  | .ok status data =>
    if status ≠ 200 then (none, cache)
    else
      let cache' :=
        match cLookup cache fileKey with
        | none => cSet cache fileKey ⟨fileKey, now, [], some data⟩
        | some _ => cache
      (some data, cache')

/-- `cacheFrameInfo` (main.ts:483-493): ensure an entry exists (created
without a structure if absent), then store the resolution into its
`frameMap`. -/
def cacheFrameInfo (now : Int) (fileKey nodeId : String) (info : FrameInfo)
    (cache : Cache) : Cache :=
  let cache1 :=
    match cLookup cache fileKey with
    | none => cSet cache fileKey ⟨fileKey, now, [], none⟩
    | some _ => cache
  match cLookup cache1 fileKey with
  | none => cache1
  | some entry =>
    cSet cache1 fileKey { entry with frameMap := fmSet entry.frameMap nodeId info }

/-- `getFrameInfoByNodeId` (main.ts:248-268).  The third component counts
the structure fetches performed by the call. -/
def getFrameInfoByNodeId (fr : FetchResult) (now : Int) (fileKey nodeId : String)
    (cache : Cache) : Option FrameInfo × Cache × Nat :=
  match getCachedFrameInfo now fileKey nodeId cache with
  | (some cachedInfo, cache1) => (some cachedInfo, cache1, 0)
  | (none, cache1) =>
    match fetchFileStructure fr now fileKey cache1 with
    | (none, cache2) => (none, cache2, 1)
    | (some fileStructure, cache2) =>
      match findFrameInfo nodeId fileStructure with
      | some frameInfo =>
        (some frameInfo, cacheFrameInfo now fileKey nodeId frameInfo cache2, 1)
      | none => (none, cache2, 1)

/-- The synthetic cache key for coordinate lookups
(`coord_${x}_${y}`, main.ts:272). -/
def coordCacheKey (x y : ℚ) : String :=
  "coord_" ++ toString x ++ "_" ++ toString y

/-- `getFrameInfoByCoordinates` (main.ts:270-293). -/
def getFrameInfoByCoordinates (fr : FetchResult) (now : Int) (fileKey : String)
    (x y : ℚ) (cache : Cache) : Option FrameInfo × Cache × Nat :=
  let coordKey := coordCacheKey x y
  match getCachedFrameInfo now fileKey coordKey cache with
  | (some cachedInfo, cache1) => (some cachedInfo, cache1, 0)
  | (none, cache1) =>
    match fetchFileStructure fr now fileKey cache1 with
    | (none, cache2) => (none, cache2, 1)
    | (some fileStructure, cache2) =>
      match findFrameAtCoordinates x y fileStructure with
      | some frameInfo =>
        (some frameInfo, cacheFrameInfo now fileKey coordKey frameInfo cache2, 1)
      | none => (none, cache2, 1)

/-- `getFrameInfo` (main.ts:234-246): dispatch on the anchor.  A non-empty
node id different from the placeholder "0:1" resolves by identifier;
otherwise, coordinates (when present) resolve by position; otherwise the
result is absent.  (JS truthiness of `nodeId` is non-emptiness; the
`coordinates.x !== undefined` checks collapse under the `Option` pair.) -/
def getFrameInfo (fr : FetchResult) (now : Int) (fileKey nodeId : String)
    (coordinates : Option (ℚ × ℚ)) (cache : Cache) :
    Option FrameInfo × Cache × Nat :=
  if nodeId ≠ "" ∧ nodeId ≠ "0:1" then
    getFrameInfoByNodeId fr now fileKey nodeId cache
  else
    match coordinates with
    | some (x, y) => getFrameInfoByCoordinates fr now fileKey x y cache
    | none => (none, cache, 0)

/-- `fetchFileStructure` of the standalone detector module
(coordinate-based-frame-detection.js:109-146): a fresh cached entry
short-circuits with its retained structure; otherwise a successful fetch
(`response.ok`, i.e. status 200-299) replaces the entry unconditionally. -/
def detectorFetchFileStructure (fr : FetchResult) (now : Int) (fileKey : String)
    (cache : Cache) : Option FileData × Cache :=
  match cLookup cache fileKey with
  | some cached =>
    if now - cached.lastUpdated < cacheValidityMs then (cached.fileStructure, cache)
    else detectorDoFetch fr now fileKey cache
  | none => detectorDoFetch fr now fileKey cache
where
  detectorDoFetch (fr : FetchResult) (now : Int) (fileKey : String)
      (cache : Cache) : Option FileData × Cache :=
    match fr with
    | .err => (none, cache)
    | .ok status data =>
      if 200 ≤ status ∧ status ≤ 299 then
        (some data, cSet cache fileKey ⟨fileKey, now, [], some data⟩)
      else (none, cache)

/-- One comment as fetched from the comments endpoint (interface
`FigmaComment`, main.ts:3-18; only the fields the renderer reads). -/
structure FigmaComment where
  id : String
  created_at : String
  resolved_at : Option String
  message : String
  handle : String
deriving DecidableEq, Repr

/-- JS truthiness of a `string | null` value: `null` and `""` are falsy. -/
def jsTruthyStr : Option String → Bool
  | none => false
  | some s => !(s == "")

/-- One rendered comment entry: the checkbox state
(`comment.resolved_at !== null`, main.ts:728-729) and the comment. -/
structure RenderedEntry where
  checkbox : Bool
  comment : FigmaComment
deriving DecidableEq, Repr

/-- The observable content of the document written by
`saveCommentsToSingleFile`: the three header counts and the ordered
comment entries. -/
structure RenderedDoc where
  totalComments : Nat
  resolvedComments : Nat
  openComments : Nat
  entries : List RenderedEntry
deriving DecidableEq, Repr

/-- The sort comparator of main.ts:723-725: descending by parsed creation
time (`new Date(b.created_at).getTime() - new Date(a.created_at).getTime()`),
with the `Date` parse abstracted as `dv`. -/
def commentDesc (dv : String → Int) (a b : FigmaComment) : Bool :=
  decide (dv b.created_at ≤ dv a.created_at)

/-- `saveCommentsToSingleFile` (main.ts:692-768), restricted to its
observable output: header counts are computed with JS truthiness
(`comments.filter(c => c.resolved_at)`, main.ts:705-706), entries come from
the stable descending sort, and each checkbox is
`comment.resolved_at !== null` (main.ts:728). -/
def renderDoc (dv : String → Int) (comments : List FigmaComment) : RenderedDoc :=
  { totalComments := comments.length
    resolvedComments := (comments.filter (fun c => jsTruthyStr c.resolved_at)).length
    openComments := (comments.filter (fun c => !jsTruthyStr c.resolved_at)).length
    entries := (comments.mergeSort (commentDesc dv)).map
      (fun c => ⟨c.resolved_at.isSome, c⟩) }

/-- Code units of `TokenManager.SECRET_KEY = 'figma-obsidian-sync-2025'`
(main.ts:81). -/
def secretKeyCodes : List Nat := "figma-obsidian-sync-2025".toList.map Char.toNat

/-- The XOR loop shared by `encrypt` and `decrypt` (main.ts:87-90,
99-102): each code unit is XORed with the key code at the index modulo the
key length. -/
def xorKeyAux : Nat → List Nat → List Nat
  | _, [] => []
  | i, c :: cs =>
    (c ^^^ secretKeyCodes.getD (i % secretKeyCodes.length) 0) :: xorKeyAux (i + 1) cs

def xorWithKey (text : List Nat) : List Nat := xorKeyAux 0 text

/-- The base64 alphabet used by `btoa`/`atob`. -/
def base64Alphabet : List Char :=
  "ABCDEFGHIJKLMNOPQRSTUVWXYZabcdefghijklmnopqrstuvwxyz0123456789+/".toList

def encChar (n : Nat) : Char := base64Alphabet.getD n 'A'

def decCharAux : Nat → List Char → Char → Option Nat
  | _, [], _ => none
  | i, a :: rest, c => if a = c then some i else decCharAux (i + 1) rest c

def decChar (c : Char) : Option Nat := decCharAux 0 base64Alphabet c

/-- `btoa` on a sequence of code points below 256: standard base64 with
`=` padding. -/
def base64encode : List Nat → List Char
  | [] => []
  | [a] => [encChar (a / 4), encChar (a % 4 * 16), '=', '=']
  | [a, b] =>
    [encChar (a / 4), encChar (a % 4 * 16 + b / 16), encChar (b % 16 * 4), '=']
  | a :: b :: c :: rest =>
    encChar (a / 4) :: encChar (a % 4 * 16 + b / 16) ::
      encChar (b % 16 * 4 + c / 64) :: encChar (c % 64) :: base64encode rest

/-- `atob`: absent result models the `InvalidCharacterError` throw. -/
def base64decode : List Char → Option (List Nat)
  | [] => some []
  | e1 :: e2 :: e3 :: e4 :: rest =>
    if e3 = '=' ∧ e4 = '=' ∧ rest = [] then
      match decChar e1, decChar e2 with
      | some x1, some x2 => some [x1 * 4 + x2 / 16]
      | _, _ => none
    else if e4 = '=' ∧ rest = [] then
      match decChar e1, decChar e2, decChar e3 with
      | some x1, some x2, some x3 =>
        some [x1 * 4 + x2 / 16, x2 % 16 * 16 + x3 / 4]
      | _, _, _ => none
    else
      match decChar e1, decChar e2, decChar e3, decChar e4, base64decode rest with
      | some x1, some x2, some x3, some x4, some bs =>
        some ((x1 * 4 + x2 / 16) :: (x2 % 16 * 16 + x3 / 4) :: (x3 % 4 * 64 + x4) :: bs)
      | _, _, _, _, _ => none
  | _ => none

/-- `TokenManager.encrypt` (main.ts:83-92) on the code units of the token:
empty input short-circuits to the empty string; otherwise XOR with the key
then `btoa`.  `btoa` throws (here: `none`) when some XORed unit is ≥ 256 —
`encrypt` does not catch. -/
def encrypt (text : List Nat) : Option (List Char) :=
  if text = [] then some []
  else
    let encd := xorWithKey text
    if encd.all (fun c => c < 256) then some (base64encode encd) else none

/-- `TokenManager.decrypt` (main.ts:94-107): empty input short-circuits;
a throwing `atob` is caught and mapped to the empty string; otherwise the
decoded units are XORed with the key again. -/
def decrypt (encStr : List Char) : List Nat :=
  if encStr = [] then []
  else
    match base64decode encStr with
    | none => []
    | some codes => xorWithKey codes

/-- Spec-side selection step on a running best candidate, phrased on areas:
keep the incumbent unless the new candidate's area is strictly smaller. -/
def keepMin (b c : Cand) : Cand :=
  if candArea c < candArea b then c else b

/-- Spec-side selection over an optional incumbent. -/
def pickMin (acc : Option Cand) (c : Cand) : Option Cand :=
  match acc with
  | none => some c
  | some b => some (keepMin b c)

/-- Attach to a candidate the score the source computes for it. -/
def withScore (c : Cand) : Cand × JScore := (c, jsScore (candArea c))

/-- The candidate list of a coordinate query: the pre-order entries that
pass the candidate test. -/
def candidatesAt (x y : ℚ) (fileData : FileData) : List Cand :=
  (preorderNode [] fileData.document).filter (candPred x y)

/-! ### Concrete inputs used by the closed theorems below -/

def nodeLabel : FNode := .mk "1:2" "Label" "TEXT" none .nil

def frameCard : FNode := .mk "2:1" "Card" "FRAME" (some ⟨0, 0, 100, 100⟩) (.cons nodeLabel .nil)

def pageOne : FNode := .mk "0:1" "Page 1" "CANVAS" none (.cons frameCard .nil)

def docNested : FNode := .mk "0:0" "Document" "DOCUMENT" none (.cons pageOne .nil)

def fdNested : FileData := ⟨docNested⟩

def frameBig : FNode := .mk "B" "Big" "FRAME" (some ⟨0, 0, 10, 10⟩) .nil

def frameSmall : FNode := .mk "S" "Small" "FRAME" (some ⟨0, 0, 10, 5⟩) .nil

def pageOverlap : FNode := .mk "0:1" "P" "CANVAS" none (.cons frameBig (.cons frameSmall .nil))

def docOverlap : FNode := .mk "0:0" "Document" "DOCUMENT" none (.cons pageOverlap .nil)

def fdOverlap : FileData := ⟨docOverlap⟩

/-- The area-50 candidate of `fdOverlap`, with its ancestor path. -/
def smallSelected : Cand := (frameSmall, [docOverlap, pageOverlap, frameSmall])

def frameWide : FNode := .mk "B2" "Wide" "FRAME" (some ⟨0, 0, 10, 10⟩) .nil

/-- A degenerate frame: zero-width, zero-height box sitting at (5,5). -/
def frameDot : FNode := .mk "9:9" "Dot" "FRAME" (some ⟨5, 5, 0, 0⟩) .nil

def pageDeg : FNode := .mk "0:1" "PD" "CANVAS" none (.cons frameWide (.cons frameDot .nil))

def docDeg : FNode := .mk "0:0" "Document" "DOCUMENT" none (.cons pageDeg .nil)

def fdDegenerate : FileData := ⟨docDeg⟩

def sampleInfo : FrameInfo := ⟨"n", "F", "P", "F"⟩

def sampleData : FileData := ⟨.mk "0:0" "Document" "DOCUMENT" none .nil⟩

/-- A pre-existing cache entry for key "K", last updated at t = 500, with a
non-empty resolution map and no retained structure. -/
def preEntry : FrameCache := ⟨"K", 500, [("n", sampleInfo)], none⟩

def preCache : Cache := [("K", preEntry)]

/-- A cache entry last updated at t = 0. -/
def entryAt0 : FrameCache := ⟨"K", 0, [("n", sampleInfo)], none⟩

def cacheAt0 : Cache := [("K", entryAt0)]

/-- A comment whose resolution timestamp is the empty string: non-null but
falsy in JS. -/
def ghostComment : FigmaComment :=
  ⟨"c1", "2024-01-01T00:00:00Z", some "", "hello", "alice"⟩

def tokenSample : List Nat := "figd_abc123".toList.map Char.toNat

/-! ### Helper lemmas about the cache operations -/

theorem cLookup_cSet_self (c : Cache) (k : String) (e : FrameCache) :
    cLookup (cSet c k e) k = some e := by
  induction c with
  | nil => simp [cSet, cLookup]
  | cons hd tl ih =>
    obtain ⟨k', e'⟩ := hd
    by_cases h : k' = k <;> simp [cSet, cLookup, h, ih]

theorem cLookup_cErase_self (c : Cache) (k : String) :
    cLookup (cErase c k) k = none := by
  induction c with
  | nil => simp [cErase, cLookup]
  | cons hd tl ih =>
    obtain ⟨k', e'⟩ := hd
    by_cases h : k' = k <;> simp [cErase, cLookup, h, ih]

theorem fmLookup_fmSet_self (m : List (String × FrameInfo)) (k : String) (i : FrameInfo) :
    fmLookup (fmSet m k i) k = some i := by
  induction m with
  | nil => simp [fmSet, fmLookup]
  | cons hd tl ih =>
    obtain ⟨k', i'⟩ := hd
    by_cases h : k' = k <;> simp [fmSet, fmLookup, h, ih]

/-- A fetch that fails (transport error or non-200 status) produces an
absent structure and leaves the cache untouched. -/
theorem fetchFileStructure_fails (fr : FetchResult) (now : Int) (key : String)
    (cache : Cache) (hf : fetchFails fr) :
    fetchFileStructure fr now key cache = (none, cache) := by
  cases fr with
  | err => rfl
  | ok status data =>
    simp only [fetchFails] at hf
    simp [fetchFileStructure, hf]

/-- C7: for every file key, resolving an anchor whose node id is the
placeholder sentinel "0:1" with no coordinates supplied returns absent,
leaves the cache unchanged and performs no structure fetch. -/
theorem placeholder_returns_absent (fr : FetchResult) (now : Int)
    (fileKey : String) (cache : Cache) :
    getFrameInfo fr now fileKey "0:1" none cache = (none, cache, 0) := by
  simp [getFrameInfo]

/-- C1: evaluation of the by-identifier resolver on a tree in which node
"1:2" sits inside the FRAME "Card" on page "Page 1".  The source returns
container name "Root" and fullPath "Root" although a container-kind
ancestor exists, because the ancestor path computed during the search is
discarded (main.ts:419-452). -/
theorem byId_root_fallback_eval :
    findFrameInfo "1:2" fdNested = some ⟨"1:2", "Root", "Page 1", "Root"⟩ ∧
    frameCard.ntype = "FRAME" ∧ containsNode "1:2" frameCard = true :=
  ⟨rfl, rfl, rfl⟩

/-- C4 counterexample: a successful fetch for a key that already has an
entry leaves the cache bit-identical — the entry keeps its old
`lastUpdated` (500, not the current time 1000), its non-empty resolution
map, and no structure is attached. -/
theorem fetch_keeps_existing_entry :
    fetchFileStructure (.ok 200 sampleData) 1000 "K" preCache =
      (some sampleData, preCache) ∧
    cLookup preCache "K" = some ⟨"K", 500, [("n", sampleInfo)], none⟩ :=
  ⟨rfl, rfl⟩

/-- C4 (amended): on a successful fetch, main.ts creates the entry (current
time, empty resolution map, structure attached) only when no entry exists,
and leaves an existing entry entirely unchanged; the standalone detector
module replaces the entry unconditionally whenever it reaches the network
(here: a stale existing entry). -/
theorem fetch_put_semantics (data : FileData) (now : Int) (key : String)
    (cache : Cache) :
    (cLookup cache key = none →
      fetchFileStructure (.ok 200 data) now key cache =
        (some data, cSet cache key ⟨key, now, [], some data⟩)) ∧
    (cLookup cache key ≠ none →
      fetchFileStructure (.ok 200 data) now key cache = (some data, cache)) ∧
    (∀ status : Int, 200 ≤ status → status ≤ 299 →
      ∀ e, cLookup cache key = some e → cacheValidityMs ≤ now - e.lastUpdated →
        detectorFetchFileStructure (.ok status data) now key cache =
          (some data, cSet cache key ⟨key, now, [], some data⟩)) := by
  refine ⟨fun h => ?_, fun h => ?_, fun status h1 h2 e he hstale => ?_⟩
  · simp [fetchFileStructure, h]
  · cases hc : cLookup cache key with
    | none => exact absurd hc h
    | some e => simp [fetchFileStructure, hc]
  · have hfresh : ¬(now - e.lastUpdated < cacheValidityMs) := not_lt.mpr hstale
    simp [detectorFetchFileStructure, he, hfresh,
      detectorFetchFileStructure.detectorDoFetch, h1, h2]

/-- Witness for `fetch_put_semantics`. -/
theorem fetch_put_semantics_check :
    fetchFileStructure (.ok 200 sampleData) 777 "Q" [] =
      (some sampleData, cSet [] "Q" ⟨"Q", 777, [], some sampleData⟩) ∧
    detectorFetchFileStructure (.ok 250 sampleData) 90000000 "K" preCache =
      (some sampleData, cSet preCache "K" ⟨"K", 90000000, [], some sampleData⟩) :=
  ⟨(fetch_put_semantics sampleData 777 "Q" []).1 rfl,
   (fetch_put_semantics sampleData 90000000 "K" preCache).2.2 250 (by norm_num)
     (by norm_num) preEntry rfl (by norm_num [preEntry, cacheValidityMs])⟩

/-- C5 counterexample: an entry whose age is exactly 24 hours
(lastUpdated = 0, now = 86400000 ms) is still consulted — the stored
resolution is returned and nothing is evicted — although the claim
demands that an entry at least 24 hours old be treated as absent. -/
theorem cache_consulted_at_exact_24h :
    getCachedFrameInfo 86400000 "K" "n" cacheAt0 = (some sampleInfo, cacheAt0) := by
  norm_num [getCachedFrameInfo, cacheAt0, entryAt0, cLookup, fmLookup, cacheValidityMs]

/-- C5 (amended): a cached entry is consulted iff its age is at most 24
hours; an entry strictly older than 24 hours is evicted at read time and
treated as absent, and the subsequent by-identifier resolve performs
exactly one structure fetch. -/
theorem cache_expiry_strict (now : Int) (key nodeId : String) (cache : Cache)
    (e : FrameCache) (he : cLookup cache key = some e) :
    (now - e.lastUpdated > cacheValidityMs →
      getCachedFrameInfo now key nodeId cache = (none, cErase cache key) ∧
      ∀ fr, (getFrameInfoByNodeId fr now key nodeId cache).2.2 = 1) ∧
    (now - e.lastUpdated ≤ cacheValidityMs →
      getCachedFrameInfo now key nodeId cache = (fmLookup e.frameMap nodeId, cache)) := by
  constructor
  · intro hold
    have hget : getCachedFrameInfo now key nodeId cache = (none, cErase cache key) := by
      simp [getCachedFrameInfo, he, hold]
    refine ⟨hget, fun fr => ?_⟩
    simp only [getFrameInfoByNodeId, hget]
    cases fr with
    | err => rfl
    | ok status data =>
      by_cases hs : status = 200
      · subst hs
        cases hfi : findFrameInfo nodeId data <;> simp [fetchFileStructure, hfi]
      · simp [fetchFileStructure, hs]
  · intro hfresh
    have : ¬(now - e.lastUpdated > cacheValidityMs) := not_lt.mpr hfresh
    simp [getCachedFrameInfo, he, this]

/-- Witness for `cache_expiry_strict`. -/
theorem cache_expiry_strict_check :
    getCachedFrameInfo 86400001 "K" "n" cacheAt0 = (none, cErase cacheAt0 "K") ∧
    (getFrameInfoByNodeId .err 86400001 "K" "n" cacheAt0).2.2 = 1 := by
  have h := (cache_expiry_strict 86400001 "K" "n" cacheAt0 entryAt0 rfl).1
    (by norm_num [entryAt0, cacheValidityMs])
  exact ⟨h.1, h.2 .err⟩

/-- C8: when the structure fetch fails (transport error, caught by the
resolver, or a non-success status) during a resolve that misses the
resolution cache, the resolver returns absent (no exception escapes — the
model is total and the error is already consumed inside
`fetchFileStructure`), with the cache exactly as the cache read left it
and exactly one attempted fetch. -/
theorem fetch_failure_absent (fr : FetchResult) (now : Int)
    (fileKey nodeId : String) (cache : Cache) (hf : fetchFails fr)
    (hmiss : (getCachedFrameInfo now fileKey nodeId cache).1 = none) :
    getFrameInfoByNodeId fr now fileKey nodeId cache =
      (none, (getCachedFrameInfo now fileKey nodeId cache).2, 1) := by
  rcases hg : getCachedFrameInfo now fileKey nodeId cache with ⟨r0, cacheA⟩
  rw [hg] at hmiss
  cases r0 with
  | some i => simp at hmiss
  | none =>
    simp [getFrameInfoByNodeId, hg, fetchFileStructure_fails fr now fileKey cacheA hf]

/-- Witness for `fetch_failure_absent`. -/
theorem fetch_failure_absent_check :
    getFrameInfoByNodeId .err 0 "K" "n" [] = (none, [], 1) := by
  have h := fetch_failure_absent .err 0 "K" "n" [] trivial rfl
  simpa using h

/-! ### Lemmas for the resolution-cache round trip -/

/-- After `cacheFrameInfo`, the key maps to an entry whose resolution map
contains the stored info; the entry's timestamp is the pre-existing one,
or the current time when no entry existed. -/
theorem cacheFrameInfo_lookup (now : Int) (key nodeId : String) (info : FrameInfo)
    (cache : Cache) :
    ∃ e, cLookup (cacheFrameInfo now key nodeId info cache) key = some e ∧
      fmLookup e.frameMap nodeId = some info ∧
      e.lastUpdated = (match cLookup cache key with
        | none => now
        | some e0 => e0.lastUpdated) := by
  cases hc : cLookup cache key with
  | none =>
    have h1 : cLookup (cSet cache key ⟨key, now, [], none⟩) key =
        some ⟨key, now, [], none⟩ := cLookup_cSet_self _ _ _
    refine ⟨⟨key, now, fmSet [] nodeId info, none⟩, ?_,
      fmLookup_fmSet_self _ _ _, by simp [hc]⟩
    simp only [cacheFrameInfo, hc, h1]
    exact cLookup_cSet_self _ _ _
  | some e0 =>
    refine ⟨{ e0 with frameMap := fmSet e0.frameMap nodeId info }, ?_,
      fmLookup_fmSet_self _ _ _, by simp [hc]⟩
    simp only [cacheFrameInfo, hc]
    exact cLookup_cSet_self _ _ _

/-- A cache-read hit leaves the cache unchanged and exposes the fresh entry
it came from. -/
theorem getCached_some (now : Int) (key nodeId : String) (cache : Cache)
    (i : FrameInfo) (h : (getCachedFrameInfo now key nodeId cache).1 = some i) :
    getCachedFrameInfo now key nodeId cache = (some i, cache) ∧
    ∃ e, cLookup cache key = some e ∧ ¬(now - e.lastUpdated > cacheValidityMs) ∧
      fmLookup e.frameMap nodeId = some i := by
  cases hc : cLookup cache key with
  | none => simp [getCachedFrameInfo, hc] at h
  | some e =>
    by_cases hage : now - e.lastUpdated > cacheValidityMs
    · simp [getCachedFrameInfo, hc, hage] at h
    · simp only [getCachedFrameInfo, hc, if_neg hage] at h ⊢
      exact ⟨by rw [h], e, rfl, hage, h⟩

/-- A cache-read miss: afterwards either no entry exists for the key, or
the cache is unchanged and holds a fresh entry whose map misses the node. -/
theorem getCached_none (now : Int) (key nodeId : String) (cache cacheA : Cache)
    (h : getCachedFrameInfo now key nodeId cache = (none, cacheA)) :
    cLookup cacheA key = none ∨
      (cacheA = cache ∧ ∃ e, cLookup cache key = some e ∧
        ¬(now - e.lastUpdated > cacheValidityMs) ∧
        fmLookup e.frameMap nodeId = none) := by
  cases hc : cLookup cache key with
  | none =>
    left
    simp only [getCachedFrameInfo, hc, Prod.mk.injEq] at h
    rw [← h.2]
    exact hc
  | some e =>
    by_cases hage : now - e.lastUpdated > cacheValidityMs
    · left
      simp only [getCachedFrameInfo, hc, if_pos hage, Prod.mk.injEq] at h
      rw [← h.2]
      exact cLookup_cErase_self cache key
    · right
      simp only [getCachedFrameInfo, hc, if_neg hage, Prod.mk.injEq] at h
      exact ⟨h.2.symm, e, rfl, hage, h.1⟩

/-- A successful structure fetch either freshly creates the entry (when
none existed) or leaves the cache exactly as it was. -/
theorem fetch_success_entry (fr : FetchResult) (now : Int) (key : String)
    (cacheA cacheB : Cache) (d : FileData)
    (hx : fetchFileStructure fr now key cacheA = (some d, cacheB)) :
    (cLookup cacheA key = none ∧ cLookup cacheB key = some ⟨key, now, [], some d⟩) ∨
    (cacheB = cacheA ∧ ∃ e, cLookup cacheA key = some e) := by
  cases fr with
  | err => simp [fetchFileStructure] at hx
  | ok status data =>
    by_cases hs : status = 200
    · subst hs
      simp only [fetchFileStructure, ne_eq, not_true_eq_false, if_false] at hx
      cases hc : cLookup cacheA key with
      | none =>
        left
        simp only [hc, Prod.mk.injEq, Option.some.injEq] at hx
        obtain ⟨h1, h2⟩ := hx
        subst h1
        exact ⟨rfl, h2 ▸ cLookup_cSet_self cacheA key ⟨key, now, [], some data⟩⟩
      | some e =>
        right
        simp only [hc, Prod.mk.injEq, Option.some.injEq] at hx
        exact ⟨hx.2.symm, e, rfl⟩
    · simp [fetchFileStructure, hs] at hx

/-- C6 (amended): a repeated resolve with identical inputs and the cache
state left by a first successful resolve returns the identical FrameInfo,
leaves the cache unchanged and performs no structure fetch; the first call
performs at most one fetch — so the structure is fetched at most once
across the two calls, exactly once iff the first call missed the
resolution cache. -/
theorem resolve_idempotent (fr : FetchResult) (now : Int) (fileKey nodeId : String)
    (cache : Cache) (info : FrameInfo) (cache1 : Cache) (n1 : Nat)
    (h : getFrameInfoByNodeId fr now fileKey nodeId cache = (some info, cache1, n1)) :
    getFrameInfoByNodeId fr now fileKey nodeId cache1 = (some info, cache1, 0) ∧
    n1 ≤ 1 := by
  rcases hg : getCachedFrameInfo now fileKey nodeId cache with ⟨r0, cacheA⟩
  cases r0 with
  | some i =>
    have hpair := getCached_some now fileKey nodeId cache i (by rw [hg])
    have h2 : getFrameInfoByNodeId fr now fileKey nodeId cache = (some i, cache, 0) := by
      simp [getFrameInfoByNodeId, hpair.1]
    rw [h2] at h
    simp only [Prod.mk.injEq, Option.some.injEq] at h
    obtain ⟨hi, hc1, hn⟩ := h
    subst hi; subst hc1
    exact ⟨by simp [getFrameInfoByNodeId, hpair.1], by omega⟩
  | none =>
    have hmiss := getCached_none now fileKey nodeId cache cacheA hg
    rcases hfetch : fetchFileStructure fr now fileKey cacheA with ⟨fsOpt, cacheB⟩
    cases fsOpt with
    | none =>
      have hcall : getFrameInfoByNodeId fr now fileKey nodeId cache = (none, cacheB, 1) := by
        simp [getFrameInfoByNodeId, hg, hfetch]
      rw [hcall] at h
      exact absurd h (by simp)
    | some d =>
      cases hfi : findFrameInfo nodeId d with
      | none =>
        have hcall : getFrameInfoByNodeId fr now fileKey nodeId cache = (none, cacheB, 1) := by
          simp [getFrameInfoByNodeId, hg, hfetch, hfi]
        rw [hcall] at h
        exact absurd h (by simp)
      | some fi =>
        have hcall : getFrameInfoByNodeId fr now fileKey nodeId cache =
            (some fi, cacheFrameInfo now fileKey nodeId fi cacheB, 1) := by
          simp [getFrameInfoByNodeId, hg, hfetch, hfi]
        rw [hcall] at h
        simp only [Prod.mk.injEq, Option.some.injEq] at h
        obtain ⟨hi, hc1, hn⟩ := h
        subst hi
        -- freshness of the entry (if any) present in cacheB for fileKey
        have hfreshB : ∀ e, cLookup cacheB fileKey = some e →
            ¬(now - e.lastUpdated > cacheValidityMs) := by
          intro e heB
          rcases fetch_success_entry fr now fileKey cacheA cacheB d hfetch with
            ⟨hnoneA, hB⟩ | ⟨hBA, e', he'⟩
          · rw [hB, Option.some.injEq] at heB
            rw [← heB]
            simp only [cacheValidityMs]
            omega
          · rw [hBA] at heB
            rcases hmiss with hnone | ⟨hAc, e2, he2, hfresh2, -⟩
            · rw [hnone] at heB; cases heB
            · rw [hAc, he2, Option.some.injEq] at heB
              rw [← heB]
              exact hfresh2
        obtain ⟨e1, he1, he1fm, he1time⟩ :=
          cacheFrameInfo_lookup now fileKey nodeId fi cacheB
        have hfresh1 : ¬(now - e1.lastUpdated > cacheValidityMs) := by
          cases hcB : cLookup cacheB fileKey with
          | none =>
            rw [hcB] at he1time
            simp only at he1time
            rw [he1time]
            simp only [cacheValidityMs]
            omega
          | some e0 =>
            rw [hcB] at he1time
            simp only at he1time
            rw [he1time]
            exact hfreshB e0 hcB
        have hsecondGet : getCachedFrameInfo now fileKey nodeId
            (cacheFrameInfo now fileKey nodeId fi cacheB) =
            (some fi, cacheFrameInfo now fileKey nodeId fi cacheB) := by
          simp [getCachedFrameInfo, he1, if_neg hfresh1, he1fm]
        rw [← hc1]
        exact ⟨by simp [getFrameInfoByNodeId, hsecondGet], by omega⟩

/-- C6 counterexample: with a fresh cached resolution already present
(entry at t = 0, read at t = 0), the first resolve already returns the
FrameInfo without fetching and without touching the cache, the second
(identical) call behaves identically, and the fetch total across the two
calls is 0, not 1. -/
theorem second_resolve_zero_fetches_on_hit :
    getFrameInfoByNodeId .err 0 "K" "n" cacheAt0 = (some sampleInfo, cacheAt0, 0) ∧
    getFrameInfoByNodeId .err 0 "K" "n"
        (getFrameInfoByNodeId .err 0 "K" "n" cacheAt0).2.1 =
      (some sampleInfo, cacheAt0, 0) ∧
    (getFrameInfoByNodeId .err 0 "K" "n" cacheAt0).2.2 +
      (getFrameInfoByNodeId .err 0 "K" "n"
        (getFrameInfoByNodeId .err 0 "K" "n" cacheAt0).2.1).2.2 = 0 := by
  refine ⟨?_, ?_, ?_⟩ <;>
    norm_num [getFrameInfoByNodeId, getCachedFrameInfo, cacheAt0, entryAt0,
      cLookup, fmLookup, cacheValidityMs]

/-- Witness for `resolve_idempotent`. -/
theorem resolve_idempotent_check :
    getFrameInfoByNodeId .err 0 "K" "n" cacheAt0 = (some sampleInfo, cacheAt0, 0) ∧
    (0 : Nat) ≤ 1 :=
  resolve_idempotent .err 0 "K" "n" cacheAt0 sampleInfo cacheAt0 0
    (by norm_num [getFrameInfoByNodeId, getCachedFrameInfo, cacheAt0, entryAt0,
      cLookup, fmLookup, cacheValidityMs])

/-! ### The coordinate resolver selects the smallest-area candidate -/

/-- A candidate's area is non-negative: the point can only lie inside a box
whose width and height are non-negative. -/
theorem candPred_area_nonneg (x y : ℚ) (np : Cand) (h : candPred x y np = true) :
    0 ≤ candArea np := by
  cases hb : np.1.bbox with
  | none => simp [candPred, hb] at h
  | some b =>
    simp only [candPred, hb, Bool.and_eq_true] at h
    have hp := h.2
    simp only [isPointInBounds, Bool.and_eq_true, decide_eq_true_eq] at hp
    have hw : 0 ≤ b.width := by linarith [hp.1.1.1, hp.1.1.2]
    have hh : 0 ≤ b.height := by linarith [hp.1.2, hp.2]
    simp only [candArea, hb]
    exact mul_nonneg hw hh

/-- On non-negative areas, the source's score comparison
`1000000/a > 1000000/b` (with zero-area scores being Infinity) is the
strict area comparison `a < b`. -/
theorem jsGt_jsScore_eq (a b : ℚ) (ha : 0 ≤ a) (hb : 0 ≤ b) :
    jsGt (jsScore a) (jsScore b) = decide (a < b) := by
  unfold jsScore
  by_cases ha0 : a = 0 <;> by_cases hb0 : b = 0
  · subst ha0; subst hb0; simp [jsGt]
  · subst ha0
    have hbpos : 0 < b := lt_of_le_of_ne hb (Ne.symm hb0)
    simp [jsGt, if_neg hb0, hbpos]
  · subst hb0
    have hapos : 0 < a := lt_of_le_of_ne ha (Ne.symm ha0)
    simp [jsGt, if_neg ha0, lt_asymm hapos]
  · have hapos : 0 < a := lt_of_le_of_ne ha (Ne.symm ha0)
    have hbpos : 0 < b := lt_of_le_of_ne hb (Ne.symm hb0)
    simp only [if_neg ha0, if_neg hb0, jsGt, decide_eq_decide]
    rw [div_lt_div_iff₀ hbpos hapos]
    exact mul_lt_mul_left (by norm_num)

/-- Every candidate's score beats the initial best score `-1`. -/
theorem jsGt_initial (a : ℚ) (ha : 0 ≤ a) :
    jsGt (jsScore a) (JScore.val (-1)) = true := by
  unfold jsScore
  by_cases ha0 : a = 0
  · simp [ha0, jsGt]
  · have hapos : 0 < a := lt_of_le_of_ne ha (Ne.symm ha0)
    have hq : (0:ℚ) < 1000000 / a := by positivity
    simp only [if_neg ha0, jsGt, decide_eq_true_eq]
    linarith

/-- Non-candidates leave the running best match unchanged. -/
theorem stepFn_not_cand (x y : ℚ) (acc : Option (Cand × JScore)) (np : Cand)
    (h : candPred x y np = false) : stepFn x y acc np = acc := by
  unfold stepFn
  cases hf : isFrameNode np.1 with
  | false => simp [hf]
  | true =>
    simp only [candPred, hf, Bool.true_and] at h
    cases hb : np.1.bbox with
    | none => simp [hb]
    | some b =>
      rw [hb] at h
      have h2 : isPointInBounds x y b = false := h
      simp [hb, h2]

/-- On a candidate, the source's step agrees with the smallest-area
selection step `pickMin` (up to attaching the score). -/
theorem stepFn_cand (x y : ℚ) (np : Cand) (h : candPred x y np = true)
    (acc : Option Cand) (hacc : ∀ b, acc = some b → candPred x y b = true) :
    stepFn x y (acc.map withScore) np = (pickMin acc np).map withScore := by
  have hnp : 0 ≤ candArea np := candPred_area_nonneg x y np h
  have h' := h
  unfold candPred at h'
  simp only [Bool.and_eq_true] at h'
  obtain ⟨hf, hb'⟩ := h'
  cases hb : np.1.bbox with
  | none => rw [hb] at hb'; simp at hb'
  | some bounds =>
    rw [hb] at hb'
    have hpt : isPointInBounds x y bounds = true := hb'
    have harea : bounds.width * bounds.height = candArea np := by
      simp [candArea, hb]
    cases acc with
    | none =>
      simp only [Option.map_none', pickMin, Option.map_some', withScore]
      unfold stepFn
      simp only [hf, hb, hpt, if_true, harea]
      rw [jsGt_initial (candArea np) hnp]
      simp
    | some b =>
      have hbp : candPred x y b = true := hacc b rfl
      have hbn : 0 ≤ candArea b := candPred_area_nonneg x y b hbp
      simp only [Option.map_some', pickMin, withScore]
      unfold stepFn
      simp only [hf, hb, hpt, if_true, harea]
      rw [jsGt_jsScore_eq (candArea np) (candArea b) hnp hbn]
      unfold keepMin
      by_cases hlt : candArea np < candArea b
      · simp [hlt, withScore]
      · simp [hlt, withScore]

/-- The source's fold over all visited nodes equals the fold over the
candidate sublist. -/
theorem foldl_stepFn_filter (x y : ℚ) (l : List Cand) (acc : Option (Cand × JScore)) :
    l.foldl (stepFn x y) acc = (l.filter (candPred x y)).foldl (stepFn x y) acc := by
  induction l generalizing acc with
  | nil => rfl
  | cons c t ih =>
    by_cases hc : candPred x y c = true
    · simp only [List.foldl_cons, List.filter_cons, hc, if_pos]
      exact ih _
    · have hc' : candPred x y c = false := by simpa using hc
      simp only [List.foldl_cons, List.filter_cons, hc']
      rw [stepFn_not_cand x y acc c hc']
      exact ih acc

/-- Over a list of candidates, the source's fold computes exactly the
`pickMin` fold, with the selected candidate's score attached. -/
theorem foldl_stepFn_eq_pickMin (x y : ℚ) (l : List Cand)
    (hl : ∀ np ∈ l, candPred x y np = true) :
    ∀ acc : Option Cand, (∀ b, acc = some b → candPred x y b = true) →
      l.foldl (stepFn x y) (acc.map withScore) = (l.foldl pickMin acc).map withScore := by
  induction l with
  | nil => intro acc _; rfl
  | cons c t ih =>
    intro acc hacc
    have hc : candPred x y c = true := hl c (List.mem_cons_self c t)
    simp only [List.foldl_cons]
    rw [stepFn_cand x y c hc acc hacc]
    refine ih (fun np hm => hl np (List.mem_cons_of_mem c hm)) (pickMin acc c) ?_
    intro b hbm
    cases acc with
    | none =>
      simp only [pickMin, Option.some.injEq] at hbm
      rw [← hbm]; exact hc
    | some a =>
      have ha := hacc a rfl
      simp only [pickMin, Option.some.injEq] at hbm
      unfold keepMin at hbm
      by_cases hlt : candArea c < candArea a
      · rw [if_pos hlt] at hbm; rw [← hbm]; exact hc
      · rw [if_neg hlt] at hbm; rw [← hbm]; exact ha

/-- Folding `pickMin` from a present incumbent is the plain `keepMin`
fold. -/
theorem foldl_pickMin_some (t : List Cand) (b : Cand) :
    t.foldl pickMin (some b) = some (t.foldl keepMin b) := by
  induction t generalizing b with
  | nil => rfl
  | cons c t ih =>
    simp only [List.foldl_cons, pickMin]
    exact ih (keepMin b c)

/-- The `keepMin` fold yields a minimal area. -/
theorem foldl_keepMin_le (t : List Cand) (b : Cand) :
    candArea (t.foldl keepMin b) ≤ candArea b ∧
      ∀ d ∈ t, candArea (t.foldl keepMin b) ≤ candArea d := by
  induction t generalizing b with
  | nil => exact ⟨le_refl _, by simp⟩
  | cons c t ih =>
    simp only [List.foldl_cons]
    obtain ⟨ih1, ih2⟩ := ih (keepMin b c)
    have hkb : candArea (keepMin b c) ≤ candArea b := by
      unfold keepMin; split
      · exact le_of_lt (by assumption)
      · exact le_refl _
    have hkc : candArea (keepMin b c) ≤ candArea c := by
      unfold keepMin; split
      · exact le_refl _
      · exact le_of_not_lt (by assumption)
    refine ⟨le_trans ih1 hkb, ?_⟩
    intro d hd
    rcases List.mem_cons.mp hd with rfl | hdt
    · exact le_trans ih1 hkc
    · exact ih2 d hdt

/-- The `keepMin` fold yields the first element attaining the minimum:
everything strictly before it in the visit order has strictly larger
area. -/
theorem foldl_keepMin_decomp (t : List Cand) (b : Cand) :
    ∃ pre post, b :: t = pre ++ (t.foldl keepMin b) :: post ∧
      ∀ d ∈ pre, candArea (t.foldl keepMin b) < candArea d := by
  induction t generalizing b with
  | nil => exact ⟨[], [], rfl, by simp⟩
  | cons c t ih =>
    simp only [List.foldl_cons]
    by_cases hlt : candArea c < candArea b
    · have hbc : keepMin b c = c := by unfold keepMin; rw [if_pos hlt]
      rw [hbc]
      obtain ⟨pre, post, heq, hpre⟩ := ih c
      refine ⟨b :: pre, post, by rw [List.cons_append, ← heq], ?_⟩
      intro d hd
      rcases List.mem_cons.mp hd with rfl | hdp
      · exact lt_of_le_of_lt (foldl_keepMin_le t c).1 hlt
      · exact hpre d hdp
    · have hbc : keepMin b c = b := by unfold keepMin; rw [if_neg hlt]
      rw [hbc]
      obtain ⟨pre, post, heq, hpre⟩ := ih b
      cases pre with
      | nil =>
        simp only [List.nil_append] at heq
        injection heq with h1 h2
        refine ⟨[], c :: t, ?_, by simp⟩
        rw [List.nil_append, ← h1]
      | cons p pre2 =>
        simp only [List.cons_append] at heq
        injection heq with h1 h2
        subst h1
        refine ⟨b :: c :: pre2, post, ?_, ?_⟩
        · rw [List.cons_append, List.cons_append, ← h2]
        · intro d hd
          have hrb : candArea (t.foldl keepMin b) < candArea b :=
            hpre b (List.mem_cons_self _ _)
          rcases List.mem_cons.mp hd with rfl | hd2
          · exact hrb
          · rcases List.mem_cons.mp hd2 with rfl | hd3
            · exact lt_of_lt_of_le hrb (le_of_not_lt hlt)
            · exact hpre d (List.mem_cons_of_mem _ hd3)

/-- The selection of `findFrameAtCoordinates` as the `pickMin` fold over
the candidate list. -/
theorem bestCand_eq_pickMin (x y : ℚ) (fd : FileData) :
    bestCand x y fd = ((candidatesAt x y fd).foldl pickMin none).map withScore := by
  unfold bestCand candidatesAt
  rw [foldl_stepFn_filter]
  exact foldl_stepFn_eq_pickMin x y _ (fun np hm => List.of_mem_filter hm) none
    (by intro b hb; cases hb)

/-- Full characterisation of a successful coordinate selection: the chosen
candidate is a candidate, its area is minimal among all candidates, every
earlier-visited candidate has strictly larger area, and the returned
FrameInfo is built from the chosen candidate's path. -/
theorem bestCand_spec (x y : ℚ) (fd : FileData) (c : Cand) (s : JScore)
    (hbc : bestCand x y fd = some (c, s)) :
    ∃ pre post, candidatesAt x y fd = pre ++ c :: post ∧
      (∀ d ∈ candidatesAt x y fd, candArea c ≤ candArea d) ∧
      (∀ d ∈ pre, candArea c < candArea d) ∧
      findFrameAtCoordinates x y fd = some (buildFrameInfoFromPath c.1 c.2) := by
  have heq := bestCand_eq_pickMin x y fd
  rw [hbc] at heq
  cases hcands : candidatesAt x y fd with
  | nil => rw [hcands] at heq; simp at heq
  | cons c0 t =>
    rw [hcands] at heq
    have hfold : (c0 :: t).foldl pickMin none = some (t.foldl keepMin c0) := by
      simp only [List.foldl_cons, pickMin]
      exact foldl_pickMin_some t c0
    rw [hfold] at heq
    simp only [Option.map_some', withScore, Option.some.injEq, Prod.mk.injEq] at heq
    obtain ⟨hc, -⟩ := heq
    subst hc
    obtain ⟨pre, post, hdecomp, hpre⟩ := foldl_keepMin_decomp t c0
    obtain ⟨hle0, hlet⟩ := foldl_keepMin_le t c0
    refine ⟨pre, post, hdecomp, ?_, hpre, ?_⟩
    · intro d hd
      rcases List.mem_cons.mp hd with rfl | hdt
      · exact hle0
      · exact hlet d hdt
    · simp [findFrameAtCoordinates, hbc]

/-- C2: among all candidates (container kind, bounding box containing the
point) the coordinate resolver selects the one with smallest area, ties
going to the first encountered in pre-order; in particular, with two
overlapping candidates of areas 100 and 50 both containing (5,5), the
area-50 candidate is selected. -/
theorem coord_selects_smallest_area_first :
    (∀ (x y : ℚ) (fd : FileData) (c : Cand) (s : JScore),
      bestCand x y fd = some (c, s) →
      ∃ pre post, candidatesAt x y fd = pre ++ c :: post ∧
        (∀ d ∈ candidatesAt x y fd, candArea c ≤ candArea d) ∧
        (∀ d ∈ pre, candArea c < candArea d) ∧
        findFrameAtCoordinates x y fd = some (buildFrameInfoFromPath c.1 c.2)) ∧
    candidatesAt 5 5 fdOverlap =
      [(frameBig, [docOverlap, pageOverlap, frameBig]), smallSelected] ∧
    candArea (frameBig, [docOverlap, pageOverlap, frameBig]) = 100 ∧
    candArea smallSelected = 50 ∧
    bestCand 5 5 fdOverlap = some (smallSelected, JScore.val 20000) ∧
    findFrameAtCoordinates 5 5 fdOverlap = some ⟨"S", "Small", "P", "Small"⟩ := by
  refine ⟨fun x y fd c s h => bestCand_spec x y fd c s h, ?_, ?_, ?_, ?_, ?_⟩
  · simp only [candidatesAt, fdOverlap, docOverlap, pageOverlap, frameBig, frameSmall,
      smallSelected, preorderNode, preorderChildren, candPred, isFrameNode,
      isPointInBounds, FNode.ntype, FNode.bbox, List.append_nil, List.nil_append,
      List.filter]
    norm_num
  · norm_num [candArea, frameBig, FNode.bbox]
  · norm_num [candArea, smallSelected, frameSmall, FNode.bbox]
  · simp only [bestCand, fdOverlap, docOverlap, pageOverlap, frameBig, frameSmall,
      smallSelected, preorderNode, preorderChildren, stepFn, isFrameNode,
      isPointInBounds, jsScore, jsGt, FNode.ntype, FNode.bbox, List.foldl,
      List.append_nil, List.nil_append]
    norm_num
  · simp only [findFrameAtCoordinates, bestCand, fdOverlap, docOverlap, pageOverlap,
      frameBig, frameSmall, preorderNode, preorderChildren, stepFn, isFrameNode,
      isPointInBounds, jsScore, jsGt, FNode.ntype, FNode.bbox, List.foldl,
      List.append_nil, List.nil_append]
    norm_num [buildFrameInfoFromPath, FNode.ntype, FNode.name, FNode.id,
      List.find?, List.findIdx?]
    decide

/-- Witness for `coord_selects_smallest_area_first`: the selection on the
overlapping-areas input. -/
theorem coord_selects_smallest_area_first_check :
    ∃ pre post, candidatesAt 5 5 fdOverlap = pre ++ smallSelected :: post ∧
      (∀ d ∈ candidatesAt 5 5 fdOverlap, candArea smallSelected ≤ candArea d) ∧
      (∀ d ∈ pre, candArea smallSelected < candArea d) ∧
      findFrameAtCoordinates 5 5 fdOverlap =
        some (buildFrameInfoFromPath smallSelected.1 smallSelected.2) :=
  coord_selects_smallest_area_first.1 5 5 fdOverlap smallSelected (JScore.val 20000)
    (by
      simp only [bestCand, fdOverlap, docOverlap, pageOverlap, frameBig, frameSmall,
        smallSelected, preorderNode, preorderChildren, stepFn, isFrameNode,
        isPointInBounds, jsScore, jsGt, FNode.ntype, FNode.bbox, List.foldl,
        List.append_nil, List.nil_append]
      norm_num)

/-- C3 counterexample: a degenerate zero-area box (width = height = 0)
containing the point is selected as the best match — its score
`1000000 / 0` is Infinity — even over a positive-area candidate that also
contains the point. -/
theorem zero_area_box_selected :
    bestCand 5 5 fdDegenerate = some ((frameDot, [docDeg, pageDeg, frameDot]), JScore.inf) ∧
    candArea (frameDot, [docDeg, pageDeg, frameDot]) = 0 ∧
    candPred 5 5 (frameWide, [docDeg, pageDeg, frameWide]) = true ∧
    candArea (frameWide, [docDeg, pageDeg, frameWide]) = 100 ∧
    findFrameAtCoordinates 5 5 fdDegenerate = some ⟨"9:9", "Dot", "PD", "Dot"⟩ := by
  refine ⟨?_, ?_, ?_, ?_, ?_⟩
  · simp only [bestCand, fdDegenerate, docDeg, pageDeg, frameWide, frameDot,
      preorderNode, preorderChildren, stepFn, isFrameNode, isPointInBounds,
      jsScore, jsGt, FNode.ntype, FNode.bbox, List.foldl,
      List.append_nil, List.nil_append]
    norm_num
  · norm_num [candArea, frameDot, FNode.bbox]
  · simp only [candPred, frameWide, isFrameNode, isPointInBounds, FNode.ntype,
      FNode.bbox]
    norm_num
  · norm_num [candArea, frameWide, FNode.bbox]
  · simp only [findFrameAtCoordinates, bestCand, fdDegenerate, docDeg, pageDeg,
      frameWide, frameDot, preorderNode, preorderChildren, stepFn, isFrameNode,
      isPointInBounds, jsScore, jsGt, FNode.ntype, FNode.bbox, List.foldl,
      List.append_nil, List.nil_append]
    norm_num [buildFrameInfoFromPath, FNode.ntype, FNode.name, FNode.id,
      List.find?, List.findIdx?]
    decide

/-- C3 (amended): a node with a missing bounding box is never selected as
the best coordinate match — any selected candidate passes the candidate
test, which requires a bounding box containing the point.  (A zero-area
box containing the point, however, can be selected: see the degenerate
evaluation above.) -/
theorem missing_bbox_never_selected (x y : ℚ) (fd : FileData) (c : Cand) (s : JScore)
    (h : bestCand x y fd = some (c, s)) :
    candPred x y c = true ∧ c.1.bbox.isSome = true := by
  obtain ⟨pre, post, hdec, -, -, -⟩ := bestCand_spec x y fd c s h
  have hmem : c ∈ candidatesAt x y fd := by
    rw [hdec]
    exact List.mem_append_right pre (List.mem_cons_self _ _)
  have hcp : candPred x y c = true := by
    have hmem' : c ∈ (preorderNode [] fd.document).filter (candPred x y) := hmem
    exact List.of_mem_filter hmem'
  refine ⟨hcp, ?_⟩
  cases hb : c.1.bbox with
  | none => simp [candPred, hb] at hcp
  | some b => simp

/-- Witness for `missing_bbox_never_selected`. -/
theorem missing_bbox_never_selected_check :
    candPred 5 5 (frameDot, [docDeg, pageDeg, frameDot]) = true ∧
    (frameDot, [docDeg, pageDeg, frameDot]).1.bbox.isSome = true :=
  missing_bbox_never_selected 5 5 fdDegenerate (frameDot, [docDeg, pageDeg, frameDot])
    JScore.inf
    (by
      simp only [bestCand, fdDegenerate, docDeg, pageDeg, frameWide, frameDot,
        preorderNode, preorderChildren, stepFn, isFrameNode, isPointInBounds,
        jsScore, jsGt, FNode.ntype, FNode.bbox, List.foldl,
        List.append_nil, List.nil_append]
      norm_num)

/-! ### Rendering of the comment document -/

/-- C9 counterexample: a comment whose `resolved_at` is the empty string —
non-null, hence "resolved" by the claim — is counted as open by the header
(the filter uses JS truthiness) while its checkbox is nevertheless checked
(the checkbox uses a strict null comparison). -/
theorem empty_string_resolved_counts :
    (renderDoc (fun _ => 0) [ghostComment]).resolvedComments = 0 ∧
    (renderDoc (fun _ => 0) [ghostComment]).openComments = 1 ∧
    ([ghostComment].filter (fun c => c.resolved_at.isSome)).length = 1 ∧
    (renderDoc (fun _ => 0) [ghostComment]).entries = [⟨true, ghostComment⟩] := by
  refine ⟨?_, ?_, ?_, ?_⟩ <;>
    simp [renderDoc, jsTruthyStr, ghostComment, List.mergeSort_singleton]

/-- C9 (amended): the rendered header reports the total comment count;
the resolved/open counts are the counts of entries with truthy
(non-null and non-empty) and falsy resolution timestamps respectively;
the entries are a permutation of the input ordered by parsed creation
time descending; and each entry's checkbox equals the strict non-null
test on its comment's resolution timestamp. -/
theorem render_header_and_order (dv : String → Int) (comments : List FigmaComment) :
    (renderDoc dv comments).totalComments = comments.length ∧
    (renderDoc dv comments).resolvedComments =
      ((renderDoc dv comments).entries.filter
        (fun e => jsTruthyStr e.comment.resolved_at)).length ∧
    (renderDoc dv comments).openComments =
      ((renderDoc dv comments).entries.filter
        (fun e => !jsTruthyStr e.comment.resolved_at)).length ∧
    List.Perm ((renderDoc dv comments).entries.map (fun e => e.comment)) comments ∧
    List.Pairwise (fun a b => dv b.comment.created_at ≤ dv a.comment.created_at)
      (renderDoc dv comments).entries ∧
    (renderDoc dv comments).entries.map (fun e => e.checkbox) =
      (renderDoc dv comments).entries.map (fun e => e.comment.resolved_at.isSome) := by
  have htrans : ∀ a b c : FigmaComment, commentDesc dv a b → commentDesc dv b c →
      commentDesc dv a c := by
    intro a b c h1 h2
    simp only [commentDesc, decide_eq_true_eq] at h1 h2 ⊢
    omega
  have htotal : ∀ a b : FigmaComment, commentDesc dv a b || commentDesc dv b a := by
    intro a b
    simp only [commentDesc, Bool.or_eq_true, decide_eq_true_eq]
    omega
  have hperm : List.Perm (comments.mergeSort (commentDesc dv)) comments :=
    List.mergeSort_perm comments (commentDesc dv)
  refine ⟨rfl, ?_, ?_, ?_, ?_, ?_⟩
  · simp only [renderDoc, List.filter_map]
    rw [List.length_map]
    have : (fun e : RenderedEntry => jsTruthyStr e.comment.resolved_at) ∘
        (fun c : FigmaComment => (⟨c.resolved_at.isSome, c⟩ : RenderedEntry)) =
        fun c => jsTruthyStr c.resolved_at := rfl
    rw [this]
    exact (List.Perm.filter _ hperm).length_eq.symm
  · simp only [renderDoc, List.filter_map]
    rw [List.length_map]
    have : (fun e : RenderedEntry => !jsTruthyStr e.comment.resolved_at) ∘
        (fun c : FigmaComment => (⟨c.resolved_at.isSome, c⟩ : RenderedEntry)) =
        fun c => !jsTruthyStr c.resolved_at := rfl
    rw [this]
    exact (List.Perm.filter _ hperm).length_eq.symm
  · simp only [renderDoc, List.map_map]
    have : ((fun e : RenderedEntry => e.comment) ∘
        (fun c : FigmaComment => (⟨c.resolved_at.isSome, c⟩ : RenderedEntry))) = id := rfl
    rw [this, List.map_id]
    exact hperm
  · have hs := List.sorted_mergeSort htrans htotal comments
    simp only [renderDoc]
    exact List.Pairwise.map _ (fun a b hab => by
      simpa only [commentDesc, decide_eq_true_eq] using hab) hs
  · simp [renderDoc, List.map_map]

/-! ### Token encryption round trip -/

theorem decChar_encChar : ∀ n, n < 64 → decChar (encChar n) = some n := by decide

theorem encChar_ne_pad : ∀ n, n < 64 → encChar n ≠ '=' := by decide

/-- Base64 decoding inverts encoding on byte sequences (all code points
below 256). -/
theorem base64_roundtrip : ∀ l : List Nat, (∀ u ∈ l, u < 256) →
    base64decode (base64encode l) = some l
  | [], _ => rfl
  | [a], h => by
    have ha : a < 256 := h a (by simp)
    have h1 : a / 4 < 64 := by omega
    have h2 : a % 4 * 16 < 64 := by omega
    simp [base64encode, base64decode, decChar_encChar _ h1, decChar_encChar _ h2]
    omega
  | [a, b], h => by
    have ha : a < 256 := h a (by simp)
    have hb : b < 256 := h b (by simp)
    have h1 : a / 4 < 64 := by omega
    have h2 : a % 4 * 16 + b / 16 < 64 := by omega
    have h3 : b % 16 * 4 < 64 := by omega
    simp [base64encode, base64decode, decChar_encChar _ h1, decChar_encChar _ h2,
      decChar_encChar _ h3, encChar_ne_pad _ h3]
    omega
  | a :: b :: u :: rest, h => by
    have ha : a < 256 := h a (by simp)
    have hb : b < 256 := h b (by simp)
    have hu : u < 256 := h u (by simp)
    have h1 : a / 4 < 64 := by omega
    have h2 : a % 4 * 16 + b / 16 < 64 := by omega
    have h3 : b % 16 * 4 + u / 64 < 64 := by omega
    have h4 : u % 64 < 64 := by omega
    have ih := base64_roundtrip rest (fun v hv => h v (by simp [hv]))
    simp [base64encode, base64decode, decChar_encChar _ h1, decChar_encChar _ h2,
      decChar_encChar _ h3, decChar_encChar _ h4, encChar_ne_pad _ h3,
      encChar_ne_pad _ h4, ih]
    omega

/-- The XOR-with-key loop is an involution at any starting index. -/
theorem xorKeyAux_involution (i : Nat) (l : List Nat) :
    xorKeyAux i (xorKeyAux i l) = l := by
  induction l generalizing i with
  | nil => rfl
  | cons a t ih =>
    simp only [xorKeyAux]
    rw [ih (i + 1)]
    rw [Nat.xor_assoc, Nat.xor_self, Nat.xor_zero]

theorem xorWithKey_ne_nil (l : List Nat) (h : l ≠ []) : xorWithKey l ≠ [] := by
  cases l with
  | nil => exact absurd rfl h
  | cons a t => simp [xorWithKey, xorKeyAux]

theorem base64encode_ne_nil (l : List Nat) (h : l ≠ []) : base64encode l ≠ [] := by
  cases l with
  | nil => exact absurd rfl h
  | cons a t =>
    cases t with
    | nil => simp [base64encode]
    | cons b t2 =>
      cases t2 with
      | nil => simp [base64encode]
      | cons u t3 => simp [base64encode]

/-- C10: for every token whose code units, after XOR with the fixed key,
stay below 256 (in particular every ASCII token), decrypt inverts encrypt;
and both map the empty string to the empty string. -/
theorem token_roundtrip :
    (∀ text : List Nat, ((xorWithKey text).all (fun u => u < 256)) = true →
      (encrypt text).map decrypt = some text) ∧
    encrypt [] = some [] ∧ decrypt [] = [] := by
  refine ⟨?_, rfl, rfl⟩
  intro text hall
  by_cases hnil : text = []
  · subst hnil; rfl
  · have henc : encrypt text = some (base64encode (xorWithKey text)) := by
      simp only [encrypt, if_neg hnil, hall, if_true]
    rw [henc]
    simp only [Option.map_some']
    have hne : base64encode (xorWithKey text) ≠ [] :=
      base64encode_ne_nil _ (xorWithKey_ne_nil text hnil)
    have hlt : ∀ u ∈ xorWithKey text, u < 256 := by
      intro u hu
      have := List.all_eq_true.mp hall u hu
      simpa using this
    unfold decrypt
    rw [if_neg hne, base64_roundtrip (xorWithKey text) hlt]
    exact congrArg some (xorKeyAux_involution 0 text)

/-- Witness for `token_roundtrip`: an ASCII sample token. -/
theorem token_roundtrip_check :
    (encrypt tokenSample).map decrypt = some tokenSample :=
  token_roundtrip.1 tokenSample (by decide)
